import Mathlib

/-!
Shallow embedding of `anychain-bitcoin/src/transaction.rs` (a no-std Bitcoin
transaction codec and signing-preimage engine).

Modelling conventions:
* Bytes are `Nat` values; every byte the embedded code produces is `< 256`.
* Machine integers are `Nat` (u32/u64/usize) or `Int` (i64), with explicit
  modular reduction where the source truncates.
* `Result<T, TransactionError>` together with the possibility of a Rust
  panic (index out of range, explicit `panic!`) is modelled by `RResult`:
  `ok`, `err` (a returned `TransactionError`) and `panicked` (process abort).
* The byte reader (`anychain_core::no_std::io::Read` over a byte slice,
  a core2-style slice reader) copies as many bytes as are available into the
  pre-zeroed buffer and leaves the remaining buffer bytes zero; the source
  ignores the returned read count.  `readN` models exactly that.
* `BitcoinAddress` (external text decoding, Base58Check/Bech32) is modelled
  by its observable behaviour in this file: its `format` discriminator and
  the scriptPubKey bytes `create_script_pub_key` derives for it.
* `BitcoinAmount` is a plain i64 satoshi wrapper, modelled as `Int`.
* `double_sha256` is an external primitive (32-byte digest); the preimage
  definitions take it as an explicit function parameter `dsha2`.
-/

namespace AnychainBitcoin

/-- Little-endian byte list of length `n` for the value `v` (truncating,
like `to_le_bytes` after an `as` cast in the source). -/
def leBytes : Nat → Nat → List Nat
  | 0, _ => []
  | n + 1, v => v % 256 :: leBytes n (v / 256)

/-- Little-endian interpretation of a byte list
(`u16::from_le_bytes` / `u32::from_le_bytes` / `u64::from_le_bytes`). -/
def fromLE : List Nat → Nat
  | [] => 0
  | b :: bs => b + 256 * fromLE bs

/-- Two's-complement unsigned view of an i64 value (`i64::to_le_bytes`
serializes this unsigned 64-bit representation). -/
def toU64 (a : Int) : Nat := (a % ((2 : Int) ^ 64)).toNat

/-- Signed view of a u64 value (`u64 as i64`). -/
def toI64 (u : Nat) : Int :=
  if u < 2 ^ 63 then (u : Int) else (u : Int) - (2 : Int) ^ 64

/-- The subset of `TransactionError` variants reachable from the embedded
code (`anychain_core::TransactionError`). -/
inductive TransactionError where
  | InvalidVariableSizeInteger (v : Nat)
  | InvalidTransactionId (len : Nat)
  | InvalidSegwitFlag (flag : Nat)
  | InvalidInputs (format : String)
  | InvalidScriptPubKey (format : String)
  | MissingOutpointAddress
  | MissingOutpointScriptPublicKey
  | MissingOutpointAmount
  | UnsupportedPreimage (format : String)
  deriving DecidableEq

/-- `Result<A, TransactionError>` plus the possibility of a Rust panic:
`panicked` models a process abort (it is not a recoverable error value). -/
inductive RResult (α : Type) where
  | ok (a : α)
  | err (e : TransactionError)
  | panicked (msg : String)
  deriving DecidableEq

def RResult.bind {α β : Type} : RResult α → (α → RResult β) → RResult β
  | .ok a, f => f a
  | .err e, _ => .err e
  | .panicked m, _ => .panicked m

/-- `BitcoinFormat`: the closed address/script format variant. -/
inductive BitcoinFormat where
  | P2PKH
  | P2WSH
  | P2SH_P2WPKH
  | Bech32
  deriving DecidableEq

/-- `SignatureHash`: the closed 12-value sighash enumeration. -/
inductive SignatureHash where
  | SIGHASH_ALL
  | SIGHASH_NONE
  | SIGHASH_SINGLE
  | SIGHASH_ALL_SIGHASH_FORKID
  | SIGHASH_NONE_SIGHASH_FORKID
  | SIGHASH_SINGLE_SIGHASH_FORKID
  | SIGHASH_ALL_SIGHASH_ANYONECANPAY
  | SIGHASH_NONE_SIGHASH_ANYONECANPAY
  | SIGHASH_SINGLE_SIGHASH_ANYONECANPAY
  | SIGHASH_ALL_SIGHASH_FORKID_SIGHASH_ANYONECANPAY
  | SIGHASH_NONE_SIGHASH_FORKID_SIGHASH_ANYONECANPAY
  | SIGHASH_SINGLE_SIGHASH_FORKID_SIGHASH_ANYONECANPAY
  deriving DecidableEq

/-- The discriminant value of each `SignatureHash` variant
(`sighash as u32`, always < 256). -/
def SignatureHash.toByte : SignatureHash → Nat
  | .SIGHASH_ALL => 0x01
  | .SIGHASH_NONE => 0x02
  | .SIGHASH_SINGLE => 0x03
  | .SIGHASH_ALL_SIGHASH_FORKID => 0x41
  | .SIGHASH_NONE_SIGHASH_FORKID => 0x42
  | .SIGHASH_SINGLE_SIGHASH_FORKID => 0x43
  | .SIGHASH_ALL_SIGHASH_ANYONECANPAY => 0x81
  | .SIGHASH_NONE_SIGHASH_ANYONECANPAY => 0x82
  | .SIGHASH_SINGLE_SIGHASH_ANYONECANPAY => 0x83
  | .SIGHASH_ALL_SIGHASH_FORKID_SIGHASH_ANYONECANPAY => 0xc1
  | .SIGHASH_NONE_SIGHASH_FORKID_SIGHASH_ANYONECANPAY => 0xc2
  | .SIGHASH_SINGLE_SIGHASH_FORKID_SIGHASH_ANYONECANPAY => 0xc3

/-- `SignatureHash::from_byte`: `none` is the `panic!("Unrecognized signature
hash")` arm (the caller's site decides how the panic is modelled). -/
def SignatureHash.from_byte : Nat → Option SignatureHash
  | 0x01 => some .SIGHASH_ALL
  | 0x02 => some .SIGHASH_NONE
  | 0x03 => some .SIGHASH_SINGLE
  | 0x41 => some .SIGHASH_ALL_SIGHASH_FORKID
  | 0x42 => some .SIGHASH_NONE_SIGHASH_FORKID
  | 0x43 => some .SIGHASH_SINGLE_SIGHASH_FORKID
  | 0x81 => some .SIGHASH_ALL_SIGHASH_ANYONECANPAY
  | 0x82 => some .SIGHASH_NONE_SIGHASH_ANYONECANPAY
  | 0x83 => some .SIGHASH_SINGLE_SIGHASH_ANYONECANPAY
  | 0xc1 => some .SIGHASH_ALL_SIGHASH_FORKID_SIGHASH_ANYONECANPAY
  | 0xc2 => some .SIGHASH_NONE_SIGHASH_FORKID_SIGHASH_ANYONECANPAY
  | 0xc3 => some .SIGHASH_SINGLE_SIGHASH_FORKID_SIGHASH_ANYONECANPAY
  | _ => none

/-- Script opcodes used by the source (`Opcode` enum). -/
def OP_DUP : Nat := 0x76
def OP_HASH160 : Nat := 0xa9
def OP_CHECKSIG : Nat := 0xac
def OP_EQUAL : Nat := 0x87
def OP_EQUALVERIFY : Nat := 0x88

/-- `variable_length_integer(value: u64)`: the VarInt encoder.  The source
returns `Result` but never an error; the branches are the literal ranges of
the source `match`. -/
def variable_length_integer (value : Nat) : List Nat :=
  if value ≤ 252 then [value]
  else if value ≤ 65535 then 0xfd :: leBytes 2 value
  else if value ≤ 4294967295 then 0xfe :: leBytes 4 value
  else 0xff :: leBytes 8 value

/-- A fixed-size read of `n` bytes from the stream: copies what is
available, the rest of the pre-zeroed buffer stays zero (core2 slice
reader semantics; the source ignores the returned count). -/
def readN (n : Nat) (s : List Nat) : List Nat × List Nat :=
  (s.take n ++ List.replicate (n - s.length) 0, s.drop n)

/-- `read_variable_length_integer`: the VarInt decoder, returning the value
and the unconsumed rest of the stream. -/
def read_variable_length_integer (s : List Nat) : RResult (Nat × List Nat) :=
  let r1 := readN 1 s
  let flag := fromLE r1.1
  if flag ≤ 252 then .ok (flag, r1.2)
  else if flag = 0xfd then
    let r2 := readN 2 r1.2
    let v := fromLE r2.1
    if v < 253 then .err (.InvalidVariableSizeInteger v) else .ok (v, r2.2)
  else if flag = 0xfe then
    let r2 := readN 4 r1.2
    let v := fromLE r2.1
    if v < 65536 then .err (.InvalidVariableSizeInteger v) else .ok (v, r2.2)
  else
    let r2 := readN 8 r1.2
    let v := fromLE r2.1
    if v < 4294967296 then .err (.InvalidVariableSizeInteger v) else .ok (v, r2.2)

/-- The observable behaviour of an external `BitcoinAddress`: its `format()`
discriminator and the scriptPubKey bytes that `create_script_pub_key`
(Base58Check/Bech32 text decoding, external to this core) derives for it. -/
structure BitcoinAddress where
  format : BitcoinFormat
  spk : List Nat
  deriving DecidableEq

/-- `Outpoint`: a reference to a spent prior output.  `amount` is the i64
satoshi value of the `BitcoinAmount` wrapper. -/
structure Outpoint where
  reverse_transaction_id : List Nat
  index : Nat
  amount : Option Int
  script_pub_key : Option (List Nat)
  redeem_script : Option (List Nat)
  address : Option BitcoinAddress
  deriving DecidableEq

/-- Rust slice indexing `v[i]`: panics when out of bounds. -/
def idx (v : List Nat) (i : Nat) : RResult Nat :=
  match v[i]? with
  | some b => .ok b
  | none => .panicked ("index out of bounds")

/-- The P2PKH validation condition of `Outpoint::new`, with the source's
literal short-circuit conjunction `spk[0] != OP_DUP && spk[1] != OP_HASH160
&& spk[last] != OP_CHECKSIG` (`true` means the error branch is taken). -/
def checkP2PKHSpk (spk : List Nat) : RResult Bool :=
  (idx spk 0).bind fun b0 =>
    if b0 = OP_DUP then .ok false
    else
      (idx spk 1).bind fun b1 =>
        if b1 = OP_HASH160 then .ok false
        else
          (idx spk (spk.length - 1)).bind fun b2 =>
            .ok (decide (b2 ≠ OP_CHECKSIG))

/-- The P2WSH validation condition of `Outpoint::new`:
`spk[0] != 0x00 && spk[1] != 0x20 && spk.len() != 34` (short-circuit). -/
def checkP2WSHSpk (spk : List Nat) : RResult Bool :=
  (idx spk 0).bind fun b0 =>
    if b0 = 0x00 then .ok false
    else
      (idx spk 1).bind fun b1 =>
        if b1 = 0x20 then .ok false
        else .ok (decide (spk.length ≠ 34))

/-- The P2SH_P2WPKH validation condition of `Outpoint::new`:
`spk[0] != OP_HASH160 && spk[last] != OP_EQUAL` (short-circuit). -/
def checkP2SHSpk (spk : List Nat) : RResult Bool :=
  (idx spk 0).bind fun b0 =>
    if b0 = OP_HASH160 then .ok false
    else
      (idx spk (spk.length - 1)).bind fun b2 =>
        .ok (decide (b2 ≠ OP_EQUAL))

/-- `Outpoint::new`: derives the scriptPubKey when not supplied and runs the
format-specific redeem-script/scriptPubKey validation.  When no address is
given, both `script_pub_key` and `redeem_script` are set to `None`. -/
def Outpoint.new (reverse_transaction_id : List Nat) (index : Nat)
    (address : Option BitcoinAddress) (amount : Option Int)
    (redeem_script : Option (List Nat)) (script_pub_key : Option (List Nat)) :
    RResult Outpoint :=
  match address with
  | none => .ok ⟨reverse_transaction_id, index, amount, none, none, none⟩
  | some addr =>
    let spk := script_pub_key.getD addr.spk
    let rsR : RResult (Option (List Nat)) :=
      match addr.format with
      | .P2PKH =>
        match redeem_script with
        | some _ => .err (.InvalidInputs ("P2PKH"))
        | none =>
          (checkP2PKHSpk spk).bind fun bad =>
            if bad then .err (.InvalidScriptPubKey ("P2PKH")) else .ok none
      | .P2WSH =>
        match redeem_script with
        | some rs =>
          (checkP2WSHSpk spk).bind fun bad =>
            if bad then .err (.InvalidScriptPubKey ("P2WSH")) else .ok (some rs)
        | none => .err (.InvalidInputs ("P2WSH"))
      | .P2SH_P2WPKH =>
        match redeem_script with
        | some rs =>
          (checkP2SHSpk spk).bind fun bad =>
            if bad then .err (.InvalidScriptPubKey ("P2SH_P2WPKH")) else .ok (some rs)
        | none => .err (.InvalidInputs ("P2SH_P2WPKH"))
      | .Bech32 =>
        match redeem_script with
        | some _ => .err (.InvalidInputs ("Bech32"))
        | none => .ok none
    rsR.bind fun rs =>
      .ok ⟨reverse_transaction_id, index, amount, some spk, rs, some addr⟩

/-- `BitcoinTransactionInput`: an outpoint plus unlocking data. -/
structure BitcoinTransactionInput where
  outpoint : Outpoint
  script_sig : List Nat
  sequence : List Nat
  sighash_code : SignatureHash
  witnesses : List (List Nat)
  is_signed : Bool
  additional_witness : Option (List Nat × Bool)
  witness_script_data : Option (List Nat)
  deriving DecidableEq

/-- `BitcoinTransactionInput::new`: checks the 32-byte txid, reverses it to
wire order and defaults sequence `0xffffffff` / sighash `SIGHASH_ALL`. -/
def BitcoinTransactionInput.new (transaction_id : List Nat) (index : Nat)
    (address : Option BitcoinAddress) (amount : Option Int)
    (redeem_script : Option (List Nat)) (script_pub_key : Option (List Nat)) :
    RResult BitcoinTransactionInput :=
  if transaction_id.length ≠ 32 then
    .err (.InvalidTransactionId transaction_id.length)
  else
    (Outpoint.new transaction_id.reverse index address amount redeem_script
        script_pub_key).bind fun outpoint =>
      .ok { outpoint, script_sig := [], sequence := [0xff, 0xff, 0xff, 0xff],
            sighash_code := .SIGHASH_ALL, witnesses := [], is_signed := false,
            additional_witness := none, witness_script_data := none }

/-- The element-reading loop of `BitcoinVector::read` once the count is
known: `(0..count).map(|_| func(reader)).collect()`. -/
def readVector {α : Type} (f : List Nat → RResult (α × List Nat)) :
    Nat → List Nat → RResult (List α × List Nat)
  | 0, s => .ok ([], s)
  | n + 1, s =>
    (f s).bind fun p =>
      (readVector f n p.2).bind fun q => .ok (p.1 :: q.1, q.2)

/-- `BitcoinVector::read`: a VarInt count followed by that many elements. -/
def bitcoinVectorRead {α : Type} (f : List Nat → RResult (α × List Nat))
    (s : List Nat) : RResult (List α × List Nat) :=
  (read_variable_length_integer s).bind fun c => readVector f c.1 c.2

/-- The one-byte element reader used for script and witness bytes. -/
def readByte (s : List Nat) : RResult (Nat × List Nat) :=
  let r := readN 1 s
  .ok (fromLE r.1, r.2)

/-- `BitcoinTransactionInput::read`. -/
def BitcoinTransactionInput.read (s : List Nat) :
    RResult (BitcoinTransactionInput × List Nat) :=
  let rh := readN 32 s
  let rv := readN 4 rh.2
  (Outpoint.new rh.1 (fromLE rv.1) none none none none).bind fun outpoint =>
  (bitcoinVectorRead readByte rv.2).bind fun rss =>
  let script_sig := rss.1
  let rq := readN 4 rss.2
  (read_variable_length_integer script_sig).bind fun rl =>
  let byteR : RResult Nat :=
    if rl.1 = 0 then .ok 0x01
    else
      match script_sig[rl.1]? with
      | some b => .ok b
      | none => .panicked ("index out of bounds")
  byteR.bind fun b =>
  match SignatureHash.from_byte b with
  | some sighash_code =>
    .ok ({ outpoint, script_sig, sequence := rq.1, sighash_code,
           witnesses := [], is_signed := !script_sig.isEmpty,
           additional_witness := none, witness_script_data := none }, rq.2)
  | none => .panicked ("Unrecognized signature hash")

/-- `BitcoinTransactionInput::serialize(raw)`. -/
def BitcoinTransactionInput.serialize (input : BitcoinTransactionInput)
    (raw : Bool) : RResult (List Nat) :=
  let base := input.outpoint.reverse_transaction_id
    ++ leBytes 4 input.outpoint.index
  let midR : RResult (List Nat) :=
    if raw then .ok [0x00]
    else if input.script_sig.length = 0 then
      match input.outpoint.address with
      | some addr =>
        match addr.format with
        | .Bech32 => .ok [0x00]
        | .P2WSH => .ok [0x00]
        | _ =>
          match input.outpoint.script_pub_key with
          | some script => .ok (variable_length_integer script.length ++ script)
          | none => .err .MissingOutpointScriptPublicKey
      | none => .ok [0x00]
    else
      .ok (variable_length_integer input.script_sig.length ++ input.script_sig)
  midR.bind fun mid => .ok (base ++ mid ++ input.sequence)

/-- `BitcoinTransactionOutput`. -/
structure BitcoinTransactionOutput where
  amount : Int
  script_pub_key : List Nat
  deriving DecidableEq

/-- Modelled from the spec: `BitcoinAmount::from_satoshi` lives in
`crate::amount` which is not under `src/`; the spec describes the type as a
plain i64 satoshi wrapper, so the constructor wraps the value. -/
def BitcoinAmount.from_satoshi (v : Int) : RResult Int := .ok v

/-- `BitcoinTransactionOutput::read`. -/
def BitcoinTransactionOutput.read (s : List Nat) :
    RResult (BitcoinTransactionOutput × List Nat) :=
  let ra := readN 8 s
  (bitcoinVectorRead readByte ra.2).bind fun rs =>
  (BitcoinAmount.from_satoshi (toI64 (fromLE ra.1))).bind fun amount =>
  .ok ({ amount, script_pub_key := rs.1 }, rs.2)

/-- `BitcoinTransactionOutput::serialize` (the source returns `Result` but
never an error). -/
def BitcoinTransactionOutput.serialize (output : BitcoinTransactionOutput) :
    List Nat :=
  leBytes 8 (toU64 output.amount)
    ++ variable_length_integer output.script_pub_key.length
    ++ output.script_pub_key

/-- `BitcoinTransactionParameters`. -/
structure BitcoinTransactionParameters where
  version : Nat
  inputs : List BitcoinTransactionInput
  outputs : List BitcoinTransactionOutput
  lock_time : Nat
  segwit_flag : Bool
  deriving DecidableEq

/-- `BitcoinTransactionParameters::new` (the source returns `Result` but
never an error): version 2, lock time 0, and `segwit_flag` always `false`. -/
def BitcoinTransactionParameters.new
    (inputs : List BitcoinTransactionInput)
    (outputs : List BitcoinTransactionOutput) : BitcoinTransactionParameters :=
  { version := 2, inputs, outputs, lock_time := 0, segwit_flag := false }

/-- One witness stack item as decoded by `BitcoinTransactionParameters::read`:
`BitcoinVector::read_witness` reads a VarInt `size`, then `BitcoinVector::read`
reads a second VarInt count and that many bytes; the stored item is
`VarInt(size) ++ bytes`. -/
def readWitnessItem (s : List Nat) : RResult (List Nat × List Nat) :=
  (read_variable_length_integer s).bind fun rsize =>
  (bitcoinVectorRead readByte rsize.2).bind fun rw =>
  .ok (variable_length_integer rsize.1 ++ rw.1, rw.2)

/-- The per-input witness-assignment loop of
`BitcoinTransactionParameters::read`: a non-empty stack sets the input's
sighash from the last byte of the first item and marks it signed. -/
def assignWitnesses :
    List BitcoinTransactionInput → List Nat →
    RResult (List BitcoinTransactionInput × List Nat)
  | [], s => .ok ([], s)
  | input :: rest, s =>
    (bitcoinVectorRead readWitnessItem s).bind fun rw =>
    let witnesses := rw.1
    let updR : RResult BitcoinTransactionInput :=
      match witnesses with
      | [] => .ok { input with witnesses := witnesses }
      | w0 :: _ =>
        match w0[w0.length - 1]? with
        | none => .panicked ("index out of bounds")
        | some b =>
          match SignatureHash.from_byte b with
          | none => .panicked ("Unrecognized signature hash")
          | some sh =>
            .ok { input with sighash_code := sh, is_signed := true, witnesses }
    updR.bind fun input2 =>
    (assignWitnesses rest rw.2).bind fun rrest =>
    .ok (input2 :: rrest.1, rrest.2)

/-- `BitcoinTransactionParameters::read`. -/
def BitcoinTransactionParameters.read (s : List Nat) :
    RResult BitcoinTransactionParameters :=
  let rv := readN 4 s
  (bitcoinVectorRead BitcoinTransactionInput.read rv.2).bind fun ri =>
  let step2 : RResult ((List BitcoinTransactionInput × Bool) × List Nat) :=
    if ri.1.isEmpty then
      let rf := readN 1 ri.2
      let flag := fromLE rf.1
      if flag = 1 then
        (bitcoinVectorRead BitcoinTransactionInput.read rf.2).bind fun ri2 =>
          .ok ((ri2.1, true), ri2.2)
      else .err (.InvalidSegwitFlag flag)
    else .ok ((ri.1, false), ri.2)
  step2.bind fun ris =>
  (bitcoinVectorRead BitcoinTransactionOutput.read ris.2).bind fun ro =>
  let step3 : RResult (List BitcoinTransactionInput × List Nat) :=
    if ris.1.2 then assignWitnesses ris.1.1 ro.2 else .ok (ris.1.1, ro.2)
  step3.bind fun riw =>
  let rl := readN 4 riw.2
  .ok { version := fromLE rv.1, inputs := riw.1, outputs := ro.1,
        lock_time := fromLE rl.1, segwit_flag := ris.1.2 }

/-- `BitcoinTransaction`: a wrapper around the parameters. -/
structure BitcoinTransaction where
  parameters : BitcoinTransactionParameters
  deriving DecidableEq

/-- The input-serialization loop of `to_bytes`, each input serialized with
`raw = !input.is_signed`. -/
def serializeInputs : List BitcoinTransactionInput → RResult (List Nat)
  | [] => .ok []
  | i :: rest =>
    (i.serialize (!i.is_signed)).bind fun bs =>
      (serializeInputs rest).bind fun bss => .ok (bs ++ bss)

/-- The witness section of `to_bytes`: a single `0x00` for an input with no
witness, else the VarInt stack count followed by the stored items. -/
def witnessSection (inputs : List BitcoinTransactionInput) : List Nat :=
  inputs.flatMap fun input =>
    if input.witnesses.isEmpty then [0x00]
    else
      variable_length_integer input.witnesses.length
        ++ input.witnesses.flatMap (fun w => w)

/-- `BitcoinTransaction::to_bytes`.  `has_witness` is the source's running
flag, equal to "some input has a non-empty witness stack". -/
def BitcoinTransaction.to_bytes (tx : BitcoinTransaction) :
    RResult (List Nat) :=
  let p := tx.parameters
  let head := leBytes 4 p.version ++ (if p.segwit_flag then [0x00, 0x01] else [])
  (serializeInputs p.inputs).bind fun ibs =>
  let has_witness := p.inputs.any fun i => !i.witnesses.isEmpty
  let obs := p.outputs.flatMap BitcoinTransactionOutput.serialize
  .ok (head ++ variable_length_integer p.inputs.length ++ ibs
       ++ variable_length_integer p.outputs.length ++ obs
       ++ (if has_witness then witnessSection p.inputs else [])
       ++ leBytes 4 p.lock_time)

/-- `BitcoinTransaction::segwit_hash_preimage` (BIP-143 preimage), with the
external double-SHA-256 primitive passed as `dsha2`. -/
def BitcoinTransaction.segwit_hash_preimage (dsha2 : List Nat → List Nat)
    (tx : BitcoinTransaction) (vin : Nat) (sighash : SignatureHash) :
    RResult (List Nat) :=
  let p := tx.parameters
  let prev_outputs := p.inputs.flatMap fun i =>
    i.outpoint.reverse_transaction_id ++ leBytes 4 i.outpoint.index
  let prev_sequences := p.inputs.flatMap fun i => i.sequence
  let outputs := p.outputs.flatMap BitcoinTransactionOutput.serialize
  match p.inputs[vin]? with
  | none => .panicked ("index out of bounds")
  | some input =>
    let formatR : RResult BitcoinFormat :=
      match input.outpoint.address with
      | some addr => .ok addr.format
      | none => .err .MissingOutpointAddress
    formatR.bind fun format =>
    let scriptR : RResult (List Nat) :=
      match format with
      | .Bech32 =>
        match input.outpoint.script_pub_key with
        | some script =>
          match script with
          | [] => .panicked ("slice index out of range")
          | _ :: t => .ok t
        | none => .err .MissingOutpointScriptPublicKey
      | .P2WSH =>
        match input.outpoint.redeem_script with
        | some rs => .ok rs
        | none => .err (.InvalidInputs ("P2WSH"))
      | .P2SH_P2WPKH =>
        match input.outpoint.redeem_script with
        | some rs =>
          match rs with
          | [] => .panicked ("slice index out of range")
          | _ :: t => .ok t
        | none => .err (.InvalidInputs ("P2SH_P2WPKH"))
      | .P2PKH => .err (.UnsupportedPreimage ("P2PKH"))
    scriptR.bind fun script =>
    let script_code :=
      if format = BitcoinFormat.P2WSH then script
      else OP_DUP :: OP_HASH160 :: script ++ [OP_EQUALVERIFY, OP_CHECKSIG]
    let amountR : RResult (List Nat) :=
      match input.outpoint.amount with
      | some a => .ok (leBytes 8 (toU64 a))
      | none => .err .MissingOutpointAmount
    amountR.bind fun outpoint_amount =>
    .ok (leBytes 4 p.version ++ dsha2 prev_outputs ++ dsha2 prev_sequences
         ++ input.outpoint.reverse_transaction_id
         ++ leBytes 4 input.outpoint.index
         ++ variable_length_integer script_code.length ++ script_code
         ++ outpoint_amount ++ input.sequence
         ++ dsha2 outputs ++ leBytes 4 p.lock_time
         ++ leBytes 4 sighash.toByte)

/-- `BitcoinTransaction::sign_p2pkh`: splice the signature (with the sighash
low byte appended, VarInt-prefixed) and the length-prefixed public key into
the input's scriptSig, mark it signed, and re-serialize. -/
def BitcoinTransaction.sign_p2pkh (tx : BitcoinTransaction)
    (signature public_key : List Nat) (index : Nat) :
    RResult (BitcoinTransaction × List Nat) :=
  match tx.parameters.inputs[index]? with
  | none => .panicked ("index out of bounds")
  | some input =>
    let sig2 := signature ++ [input.sighash_code.toByte]
    let sig3 := variable_length_integer sig2.length ++ sig2
    let pk2 := public_key.length % 256 :: public_key
    let input2 := { input with script_sig := sig3 ++ pk2, is_signed := true }
    let tx2 : BitcoinTransaction :=
      { parameters :=
          { tx.parameters with inputs := tx.parameters.inputs.set index input2 } }
    tx2.to_bytes.bind fun bs => .ok (tx2, bs)

/-- The BIP-143 preimage exactly as claim C1 words it: identical to the
source algorithm except that for a Bech32 outpoint the script code is the
scriptPubKey with its leading byte stripped and NOT wrapped in
`OP_DUP OP_HASH160 .. OP_EQUALVERIFY OP_CHECKSIG` (the claim names that
wrapping only for P2SH-P2WPKH). -/
def claimedSegwitPreimage (dsha2 : List Nat → List Nat)
    (tx : BitcoinTransaction) (vin : Nat) (sighash : SignatureHash) :
    RResult (List Nat) :=
  let p := tx.parameters
  let prev_outputs := p.inputs.flatMap fun i =>
    i.outpoint.reverse_transaction_id ++ leBytes 4 i.outpoint.index
  let prev_sequences := p.inputs.flatMap fun i => i.sequence
  let outputs := p.outputs.flatMap BitcoinTransactionOutput.serialize
  match p.inputs[vin]? with
  | none => .panicked ("index out of bounds")
  | some input =>
    let formatR : RResult BitcoinFormat :=
      match input.outpoint.address with
      | some addr => .ok addr.format
      | none => .err .MissingOutpointAddress
    formatR.bind fun format =>
    let scriptCodeR : RResult (List Nat) :=
      match format with
      | .Bech32 =>
        match input.outpoint.script_pub_key with
        | some script => .ok (script.drop 1)
        | none => .err .MissingOutpointScriptPublicKey
      | .P2WSH =>
        match input.outpoint.redeem_script with
        | some rs => .ok rs
        | none => .err (.InvalidInputs ("P2WSH"))
      | .P2SH_P2WPKH =>
        match input.outpoint.redeem_script with
        | some rs =>
          .ok (OP_DUP :: OP_HASH160 :: rs.drop 1 ++ [OP_EQUALVERIFY, OP_CHECKSIG])
        | none => .err (.InvalidInputs ("P2SH_P2WPKH"))
      | .P2PKH => .err (.UnsupportedPreimage ("P2PKH"))
    scriptCodeR.bind fun script_code =>
    let amountR : RResult (List Nat) :=
      match input.outpoint.amount with
      | some a => .ok (leBytes 8 (toU64 a))
      | none => .err .MissingOutpointAmount
    amountR.bind fun outpoint_amount =>
    .ok (leBytes 4 p.version ++ dsha2 prev_outputs ++ dsha2 prev_sequences
         ++ input.outpoint.reverse_transaction_id
         ++ leBytes 4 input.outpoint.index
         ++ variable_length_integer script_code.length ++ script_code
         ++ outpoint_amount ++ input.sequence
         ++ dsha2 outputs ++ leBytes 4 p.lock_time
         ++ leBytes 4 sighash.toByte)

/-- A P2WSH address whose external decoding yields the canonical 34-byte
witness-version-0 scriptPubKey. -/
def c6Addr : BitcoinAddress :=
  { format := .P2WSH, spk := 0x00 :: 0x20 :: List.replicate 32 0x11 }

/-- A 33-byte scriptPubKey starting with `0x00` (not a valid P2WSH
scriptPubKey: wrong length). -/
def c6Spk : List Nat := 0x00 :: List.replicate 32 0x11

/-- A legacy transaction byte stream whose single input's scriptSig is
`[0x01, 0x05]`: the decoded scriptSig-length VarInt is 1, so the sighash
byte is `script_sig[1] = 0x05`, which no `SignatureHash` variant carries. -/
def c10FailingBytes : List Nat :=
  [1, 0, 0, 0] ++ [1] ++ List.replicate 32 0 ++ [0, 0, 0, 0]
    ++ [2, 1, 5] ++ [255, 255, 255, 255] ++ [0] ++ [0, 0, 0, 0]

/-- Whether an `RResult` is a success. -/
def RResult.isOk {α : Type} : RResult α → Bool
  | .ok _ => true
  | _ => false

/-- A concrete stand-in for the external double-SHA-256 primitive (any
function returning a 32-byte digest; used to instantiate preimage
statements at concrete inputs). -/
def dshaZero : List Nat → List Nat := fun _ => List.replicate 32 0

/-- The BIP-143 preimage byte layout (the concatenation stated by the
specification), parameterized by the script code and outpoint amount of the
targeted input. -/
def bip143LayoutSpec (dsha2 : List Nat → List Nat)
    (p : BitcoinTransactionParameters) (input : BitcoinTransactionInput)
    (script_code : List Nat) (amt : Int) (sighash : SignatureHash) :
    List Nat :=
  leBytes 4 p.version
    ++ dsha2 (p.inputs.flatMap fun i =>
        i.outpoint.reverse_transaction_id ++ leBytes 4 i.outpoint.index)
    ++ dsha2 (p.inputs.flatMap fun i => i.sequence)
    ++ input.outpoint.reverse_transaction_id
    ++ leBytes 4 input.outpoint.index
    ++ variable_length_integer script_code.length ++ script_code
    ++ leBytes 8 (toU64 amt) ++ input.sequence
    ++ dsha2 (p.outputs.flatMap BitcoinTransactionOutput.serialize)
    ++ leBytes 4 p.lock_time ++ leBytes 4 sighash.toByte

/-- A native-segwit (Bech32) address whose decoding yields the canonical
P2WPKH scriptPubKey `0x00 0x14 <20-byte hash>`. -/
def c1Addr : BitcoinAddress :=
  { format := .Bech32, spk := [0x00, 0x14] ++ List.replicate 20 0x22 }

/-- A fresh unsigned input over the given outpoint, with the defaults of
`BitcoinTransactionInput::new` (empty scriptSig, sequence `0xffffffff`,
`SIGHASH_ALL`, no witnesses). -/
def mkUnsignedInput (o : Outpoint) : BitcoinTransactionInput :=
  ⟨o, [], [255, 255, 255, 255], .SIGHASH_ALL, [], false, none, none⟩

/-- A transaction with the given inputs and outputs and the defaults of
`BitcoinTransactionParameters::new` (version 2, lock time 0, no segwit
flag). -/
def mkTx (ins : List BitcoinTransactionInput)
    (outs : List BitcoinTransactionOutput) : BitcoinTransaction :=
  ⟨BitcoinTransactionParameters.new ins outs⟩

/-- A transaction input spending a Bech32 outpoint (scriptPubKey and amount
present). -/
def c1In : BitcoinTransactionInput :=
  mkUnsignedInput ⟨List.replicate 32 0xaa, 0, some 5000,
    some ([0x00, 0x14] ++ List.replicate 20 0x22), none, some c1Addr⟩

/-- A one-input transaction over `c1In`. -/
def c1Tx : BitcoinTransaction := mkTx [c1In] []

/-- An input whose outpoint has no address. -/
def c8InA : BitcoinTransactionInput :=
  mkUnsignedInput ⟨List.replicate 32 1, 0, some 7, none, none, none⟩

def c8TxA : BitcoinTransaction := mkTx [c8InA] []

/-- A P2PKH address (legacy). -/
def c8AddrB : BitcoinAddress :=
  { format := .P2PKH,
    spk := [0x76, 0xa9, 0x14] ++ List.replicate 20 3 ++ [0x88, 0xac] }

/-- An input whose outpoint address has the legacy P2PKH format. -/
def c8InB : BitcoinTransactionInput :=
  mkUnsignedInput ⟨List.replicate 32 1, 0, some 7,
    some ([0x76, 0xa9, 0x14] ++ List.replicate 20 3 ++ [0x88, 0xac]),
    none, some c8AddrB⟩

def c8TxB : BitcoinTransaction := mkTx [c8InB] []

/-- A Bech32 address. -/
def c8AddrC : BitcoinAddress :=
  { format := .Bech32, spk := [0x00, 0x14] ++ List.replicate 20 4 }

/-- An input spending a Bech32 outpoint whose amount is absent. -/
def c8InC : BitcoinTransactionInput :=
  mkUnsignedInput ⟨List.replicate 32 1, 0, none,
    some ([0x00, 0x14] ++ List.replicate 20 4), none, some c8AddrC⟩

def c8TxC : BitcoinTransaction := mkTx [c8InC] []

/-- A plain unsigned legacy input (no outpoint metadata). -/
def c3In : BitcoinTransactionInput :=
  mkUnsignedInput ⟨List.replicate 32 9, 0, none, none, none, none⟩

def c3Tx : BitcoinTransaction := mkTx [c3In] []

/-- The transaction state claim C3 describes `sign_p2pkh` producing: input
`index` gets scriptSig
`VarInt(len(sig)+1) ++ sig ++ sighash-low-byte ++ len(pubkey) ++ pubkey`
and is marked signed. -/
def signP2pkhExpected (tx : BitcoinTransaction)
    (input : BitcoinTransactionInput) (signature public_key : List Nat)
    (index : Nat) : BitcoinTransaction :=
  ⟨{ tx.parameters with
      inputs := tx.parameters.inputs.set index
        { input with
            script_sig :=
              variable_length_integer (signature.length + 1)
                ++ (signature ++ [input.sighash_code.toByte])
                ++ (public_key.length % 256 :: public_key)
            is_signed := true } }⟩

/-- An input value carrying a non-empty witness stack (the input struct's
fields are public, so such a value is constructible by any caller). -/
def c9WitIn : BitcoinTransactionInput :=
  ⟨⟨List.replicate 32 0, 0, none, none, none, none⟩, [],
    [255, 255, 255, 255], .SIGHASH_ALL, [[0x01]], false, none, none⟩

/-- A segwit transaction byte stream: empty marker, flag 1, one input, no
outputs, a one-item witness stack whose stored item is `[0x01, 0x01]`. -/
def c9Stream : List Nat :=
  [1, 0, 0, 0] ++ [0] ++ [1] ++ [1] ++ List.replicate 32 0 ++ [0, 0, 0, 0]
    ++ [0] ++ [255, 255, 255, 255] ++ [0] ++ [1, 1, 1, 1] ++ [0, 0, 0, 0]

/-- The input produced by decoding `c9Stream`. -/
def c9PIn : BitcoinTransactionInput :=
  ⟨⟨List.replicate 32 0, 0, none, none, none, none⟩, [],
    [255, 255, 255, 255], .SIGHASH_ALL, [[1, 1]], true, none, none⟩

/-- The parameters produced by decoding `c9Stream`. -/
def c9P : BitcoinTransactionParameters := ⟨1, [c9PIn], [], 0, true⟩

/-- An input constructed through `BitcoinTransactionInput::new` with a
present amount (inputs carry outpoint metadata the wire format drops). -/
def c2In : BitcoinTransactionInput :=
  mkUnsignedInput ⟨List.replicate 32 7, 0, some 5, none, none, none⟩

/-- An input whose fields are exactly what the wire format round-trips:
32-byte txid, u32 index, no outpoint metadata, empty scriptSig, 4-byte
sequence, default sighash, unsigned, no witness data. -/
def PlainInput (i : BitcoinTransactionInput) : Prop :=
  i.outpoint.reverse_transaction_id.length = 32 ∧
  i.outpoint.index < 2 ^ 32 ∧
  i.outpoint.amount = none ∧
  i.outpoint.script_pub_key = none ∧
  i.outpoint.redeem_script = none ∧
  i.outpoint.address = none ∧
  i.script_sig = [] ∧
  i.sequence.length = 4 ∧
  i.sighash_code = .SIGHASH_ALL ∧
  i.witnesses = [] ∧
  i.is_signed = false ∧
  i.additional_witness = none ∧
  i.witness_script_data = none

/-- An output whose amount fits i64 and whose script length fits u64. -/
def PlainOutput (o : BitcoinTransactionOutput) : Prop :=
  -(2 ^ 63) ≤ o.amount ∧ o.amount < 2 ^ 63 ∧ o.script_pub_key.length < 2 ^ 64

instance (i : BitcoinTransactionInput) : Decidable (PlainInput i) := by
  unfold PlainInput
  infer_instance

instance (o : BitcoinTransactionOutput) : Decidable (PlainOutput o) := by
  unfold PlainOutput
  infer_instance

/-- A plain input and output pair for round-trip witnesses. -/
def c2PlainIn : BitcoinTransactionInput :=
  mkUnsignedInput ⟨List.replicate 32 3, 1, none, none, none, none⟩

def c2PlainOut : BitcoinTransactionOutput := ⟨1000, [0x6a]⟩

/-! ### Helper lemmas -/

theorem leBytes_length (n v : Nat) : (leBytes n v).length = n := by
  induction n generalizing v with
  | zero => rfl
  | succ n ih => simp [leBytes, ih]

theorem fromLE_leBytes (n v : Nat) : fromLE (leBytes n v) = v % 256 ^ n := by
  induction n generalizing v with
  | zero => simp [leBytes, fromLE, Nat.mod_one]
  | succ n ih =>
    have h : (256 : Nat) ^ (n + 1) = 256 * 256 ^ n := by ring
    simp [leBytes, fromLE, ih, h, Nat.mod_mul]

theorem fromLE_leBytes_eq {n v : Nat} (h : v < 256 ^ n) :
    fromLE (leBytes n v) = v := by
  rw [fromLE_leBytes, Nat.mod_eq_of_lt h]

theorem readN_exact {n : Nat} (xs rest : List Nat) (h : xs.length = n) :
    readN n (xs ++ rest) = (xs, rest) := by
  subst h
  have h1 : (xs ++ rest).take xs.length = xs := List.take_left xs rest
  have h2 : (xs ++ rest).drop xs.length = rest := List.drop_left xs rest
  have h3 : xs.length - (xs ++ rest).length = 0 := by
    simp [List.length_append]
  simp [readN, h1, h2, h3]

theorem readN_one (a : Nat) (l : List Nat) : readN 1 (a :: l) = ([a], l) := by
  have := readN_exact (n := 1) [a] l rfl
  simpa using this

theorem readN_pad (n : Nat) : readN n ([] : List Nat) = (List.replicate n 0, []) := by
  simp [readN]

theorem fromLE_single (b : Nat) : fromLE [b] = b := by
  simp [fromLE]

theorem RResult.bind_ok_iff {α β : Type} (m : RResult α) (f : α → RResult β)
    (b : β) : m.bind f = .ok b ↔ ∃ a, m = .ok a ∧ f a = .ok b := by
  cases m <;> simp [RResult.bind]

/-- Any input produced by `BitcoinTransactionInput::read` has an empty
witness stack. -/
theorem input_read_witnesses_nil {s : List Nat}
    {x : BitcoinTransactionInput} {r : List Nat}
    (h : BitcoinTransactionInput.read s = .ok (x, r)) : x.witnesses = [] := by
  unfold BitcoinTransactionInput.read at h
  simp only [RResult.bind_ok_iff] at h
  obtain ⟨o, ho, ss, hss, rl, hrl, b, hb, h⟩ := h
  cases hfb : SignatureHash.from_byte b with
  | none => rw [hfb] at h; cases h
  | some sc => rw [hfb] at h; cases h; rfl

/-- Every element read by the input-vector loop has an empty witness
stack. -/
theorem readVector_input_witnesses_nil (n : Nat) :
    ∀ s out r, readVector BitcoinTransactionInput.read n s = .ok (out, r) →
      ∀ i ∈ out, i.witnesses = [] := by
  induction n with
  | zero =>
    intro s out r h i hi
    simp only [readVector] at h
    cases h
    simp at hi
  | succ n ih =>
    intro s out r h i hi
    unfold readVector at h
    simp only [RResult.bind_ok_iff] at h
    obtain ⟨⟨p1, p2⟩, hp, ⟨q1, q2⟩, hq, hfin⟩ := h
    cases hfin
    rcases List.mem_cons.mp hi with h1 | h1
    · subst h1; exact input_read_witnesses_nil hp
    · exact ih _ _ _ hq _ h1

/-- Decoding the canonical encoding of any u64 value consumes exactly the
encoding and returns the value. -/
theorem read_varint_encode (v : Nat) (hv : v < 2 ^ 64) (rest : List Nat) :
    read_variable_length_integer (variable_length_integer v ++ rest) =
      .ok (v, rest) := by
  unfold variable_length_integer
  by_cases h1 : v ≤ 252
  · rw [if_pos h1]
    unfold read_variable_length_integer
    have hr := readN_exact (n := 1) [v] rest rfl
    simp only [List.cons_append, List.nil_append] at hr
    simp [hr, fromLE_single, h1]
  · by_cases h2 : v ≤ 65535
    · rw [if_neg h1, if_pos h2]
      unfold read_variable_length_integer
      have hr := readN_exact (n := 1) [0xfd] (leBytes 2 v ++ rest) rfl
      simp only [List.cons_append, List.nil_append] at hr
      have hr2 := readN_exact (leBytes 2 v) rest (leBytes_length 2 v)
      have hval : fromLE (leBytes 2 v) = v := fromLE_leBytes_eq (by norm_num; omega)
      simp [hr, hr2, fromLE_single, hval]
      omega
    · by_cases h3 : v ≤ 4294967295
      · rw [if_neg h1, if_neg h2, if_pos h3]
        unfold read_variable_length_integer
        have hr := readN_exact (n := 1) [0xfe] (leBytes 4 v ++ rest) rfl
        simp only [List.cons_append, List.nil_append] at hr
        have hr2 := readN_exact (leBytes 4 v) rest (leBytes_length 4 v)
        have hval : fromLE (leBytes 4 v) = v := fromLE_leBytes_eq (by norm_num; omega)
        simp [hr, hr2, fromLE_single, hval]
        omega
      · rw [if_neg h1, if_neg h2, if_neg h3]
        unfold read_variable_length_integer
        have hr := readN_exact (n := 1) [0xff] (leBytes 8 v ++ rest) rfl
        simp only [List.cons_append, List.nil_append] at hr
        have hr2 := readN_exact (leBytes 8 v) rest (leBytes_length 8 v)
        have hval : fromLE (leBytes 8 v) = v := fromLE_leBytes_eq (by norm_num; omega)
        simp [hr, hr2, fromLE_single, hval]
        omega

theorem toU64_lt (a : Int) : toU64 a < 2 ^ 64 := by
  unfold toU64
  omega

theorem toI64_toU64 (a : Int) (h1 : -(2 ^ 63) ≤ a) (h2 : a < 2 ^ 63) :
    toI64 (toU64 a) = a := by
  unfold toI64 toU64
  split <;> omega

theorem readVector_readByte_exact (xs rest : List Nat) :
    readVector readByte xs.length (xs ++ rest) = .ok (xs, rest) := by
  induction xs with
  | nil => simp [readVector]
  | cons x xs ih =>
    have hb : readByte (x :: (xs ++ rest)) = .ok (x, xs ++ rest) := by
      simp [readByte, readN_one, fromLE_single]
    simp [readVector, hb, RResult.bind, ih]

theorem bitcoinVectorRead_bytes (xs rest : List Nat)
    (h : xs.length < 2 ^ 64) :
    bitcoinVectorRead readByte
      (variable_length_integer xs.length ++ (xs ++ rest)) = .ok (xs, rest) := by
  unfold bitcoinVectorRead
  rw [read_varint_encode xs.length h (xs ++ rest)]
  simp [RResult.bind, readVector_readByte_exact]

theorem output_serialize_read (o : BitcoinTransactionOutput)
    (rest : List Nat) (h : PlainOutput o) :
    BitcoinTransactionOutput.read
      (BitcoinTransactionOutput.serialize o ++ rest) = .ok (o, rest) := by
  obtain ⟨amt, spk⟩ := o
  obtain ⟨h1, h2, h3⟩ := h
  unfold BitcoinTransactionOutput.serialize
  unfold BitcoinTransactionOutput.read
  have h8 : readN 8
      (leBytes 8 (toU64 amt) ++ (variable_length_integer spk.length ++ (spk ++ rest))) =
      (leBytes 8 (toU64 amt), variable_length_integer spk.length ++ (spk ++ rest)) :=
    readN_exact _ _ (leBytes_length 8 _)
  have hbv := bitcoinVectorRead_bytes spk rest h3
  have hamt : fromLE (leBytes 8 (toU64 amt)) = toU64 amt :=
    fromLE_leBytes_eq (by have := toU64_lt amt; norm_num; omega)
  simp only [List.append_assoc, h8, hbv, RResult.bind, hamt,
    BitcoinAmount.from_satoshi]
  simp [toI64_toU64 amt h1 h2]

theorem readVector_outputs (l : List BitcoinTransactionOutput)
    (rest : List Nat) (h : ∀ o ∈ l, PlainOutput o) :
    readVector BitcoinTransactionOutput.read l.length
      (l.flatMap BitcoinTransactionOutput.serialize ++ rest) = .ok (l, rest) := by
  induction l with
  | nil => simp [readVector]
  | cons o l ih =>
    have ho := h o (by simp)
    have hrd := output_serialize_read o
      (l.flatMap BitcoinTransactionOutput.serialize ++ rest) ho
    have ihl := ih fun x hx => h x (by simp [hx])
    simp only [List.flatMap_cons, List.append_assoc, List.length_cons]
    simp [readVector, hrd, RResult.bind, ihl]

/-- The wire bytes of an input as emitted by `serialize(raw = true)`. -/
theorem input_serialize_plain (i : BitcoinTransactionInput) :
    BitcoinTransactionInput.serialize i true =
      .ok (i.outpoint.reverse_transaction_id ++
        (leBytes 4 i.outpoint.index ++ ([0] ++ i.sequence))) := by
  unfold BitcoinTransactionInput.serialize
  simp [RResult.bind, List.append_assoc]

theorem input_read_plain (i : BitcoinTransactionInput) (rest : List Nat)
    (h : PlainInput i) :
    BitcoinTransactionInput.read
      (i.outpoint.reverse_transaction_id ++
        (leBytes 4 i.outpoint.index ++ ([0] ++ i.sequence)) ++ rest) =
      .ok (i, rest) := by
  obtain ⟨⟨rtx, idx, am, spk, rs, ad⟩, ssig, sq, sh, wit, sgn, aw, wsd⟩ := i
  obtain ⟨h1, h2, h3, h4, h5, h6, h7, h8, h9, h10, h11, h12, h13⟩ := h
  simp only at h1 h2 h3 h4 h5 h6 h7 h8 h9 h10 h11 h12 h13
  subst h3 h4 h5 h6 h7 h9 h10 h11 h12 h13
  unfold BitcoinTransactionInput.read
  have hr32 : readN 32 (rtx ++ (leBytes 4 idx ++ ([0] ++ (sq ++ rest)))) =
      (rtx, leBytes 4 idx ++ ([0] ++ (sq ++ rest))) := readN_exact _ _ h1
  have hr4 : readN 4 (leBytes 4 idx ++ ([0] ++ (sq ++ rest))) =
      (leBytes 4 idx, [0] ++ (sq ++ rest)) := readN_exact _ _ (leBytes_length 4 _)
  have hidx : fromLE (leBytes 4 idx) = idx :=
    fromLE_leBytes_eq (by norm_num; omega)
  have hbv : bitcoinVectorRead readByte ([0] ++ (sq ++ rest)) =
      .ok ([], sq ++ rest) := by
    have := bitcoinVectorRead_bytes [] (sq ++ rest) (by norm_num)
    simpa [variable_length_integer] using this
  have hsq : readN 4 (sq ++ rest) = (sq, rest) := readN_exact _ _ h8
  have hv0 : read_variable_length_integer ([] : List Nat) = .ok (0, []) := by
    decide
  simp only [List.append_assoc, hr32, hr4, hbv, RResult.bind, hsq, hv0,
    Outpoint.new, hidx]
  simp [SignatureHash.from_byte]

theorem readVector_inputs (l : List BitcoinTransactionInput)
    (rest : List Nat) (h : ∀ i ∈ l, PlainInput i) :
    readVector BitcoinTransactionInput.read l.length
      ((l.flatMap fun i => i.outpoint.reverse_transaction_id ++
        (leBytes 4 i.outpoint.index ++ ([0] ++ i.sequence))) ++ rest) =
      .ok (l, rest) := by
  induction l with
  | nil => simp [readVector]
  | cons i l ih =>
    have hi := h i (by simp)
    have hrd := input_read_plain i
      ((l.flatMap fun x => x.outpoint.reverse_transaction_id ++
        (leBytes 4 x.outpoint.index ++ ([0] ++ x.sequence))) ++ rest) hi
    have ihl := ih fun x hx => h x (by simp [hx])
    simp only [List.flatMap_cons, List.append_assoc, List.length_cons]
    simp only [List.append_assoc, List.singleton_append, List.cons_append,
      List.nil_append] at hrd ihl ⊢
    simp [readVector, hrd, RResult.bind, ihl]

theorem serializeInputs_plain (l : List BitcoinTransactionInput)
    (h : ∀ i ∈ l, PlainInput i) :
    serializeInputs l =
      .ok (l.flatMap fun i => i.outpoint.reverse_transaction_id ++
        (leBytes 4 i.outpoint.index ++ ([0] ++ i.sequence))) := by
  induction l with
  | nil => simp [serializeInputs]
  | cons i l ih =>
    have hi := h i (by simp)
    have hsgn : i.is_signed = false := hi.2.2.2.2.2.2.2.2.2.2.1
    have hser := input_serialize_plain i
    have ihl := ih fun x hx => h x (by simp [hx])
    simp [serializeInputs, hsgn, hser, RResult.bind, ihl]

theorem inputs_any_witness_false (l : List BitcoinTransactionInput)
    (h : ∀ i ∈ l, PlainInput i) :
    (l.any fun i => !i.witnesses.isEmpty) = false := by
  induction l with
  | nil => rfl
  | cons i l ih =>
    have hw : i.witnesses = [] := (h i (by simp)).2.2.2.2.2.2.2.2.2.1
    have ihl := ih fun x hx => h x (by simp [hx])
    simp [hw, ihl]

/-! ### Claim theorems -/

/-- C4: the VarInt encoder emits 1 byte for values up to 252, the tag 0xfd
plus 2 little-endian bytes for 253..65535, the tag 0xfe plus 4 little-endian
bytes for 65536..4294967295, and the tag 0xff plus 8 little-endian bytes
otherwise; decoding the encoding of any u64 value returns the value. -/
theorem c4_varint_encoding (v : Nat) (hv : v < 2 ^ 64) :
    (v ≤ 252 → variable_length_integer v = [v]) ∧
    (253 ≤ v → v ≤ 65535 →
      variable_length_integer v = 0xfd :: leBytes 2 v ∧
      (leBytes 2 v).length = 2 ∧ fromLE (leBytes 2 v) = v) ∧
    (65536 ≤ v → v ≤ 4294967295 →
      variable_length_integer v = 0xfe :: leBytes 4 v ∧
      (leBytes 4 v).length = 4 ∧ fromLE (leBytes 4 v) = v) ∧
    (4294967296 ≤ v →
      variable_length_integer v = 0xff :: leBytes 8 v ∧
      (leBytes 8 v).length = 8 ∧ fromLE (leBytes 8 v) = v) ∧
    read_variable_length_integer (variable_length_integer v) = .ok (v, []) := by
  refine ⟨?_, ?_, ?_, ?_, ?_⟩
  · intro h; simp [variable_length_integer, h]
  · intro h1 h2
    refine ⟨?_, leBytes_length 2 v, fromLE_leBytes_eq (by norm_num; omega)⟩
    unfold variable_length_integer
    rw [if_neg (by omega), if_pos (by omega)]
  · intro h1 h2
    refine ⟨?_, leBytes_length 4 v, fromLE_leBytes_eq (by norm_num; omega)⟩
    unfold variable_length_integer
    rw [if_neg (by omega), if_neg (by omega), if_pos (by omega)]
  · intro h1
    refine ⟨?_, leBytes_length 8 v, fromLE_leBytes_eq (by norm_num; omega)⟩
    unfold variable_length_integer
    rw [if_neg (by omega), if_neg (by omega), if_neg (by omega)]
  · have := read_varint_encode v hv []
    simpa using this

theorem c4_varint_encoding_witness :
    300 < 2 ^ 64 ∧
    read_variable_length_integer (variable_length_integer 300) = .ok (300, []) :=
  ⟨by norm_num, (c4_varint_encoding 300 (by norm_num)).2.2.2.2⟩

/-- C5: the VarInt decoder rejects non-canonical encodings with
`InvalidVariableSizeInteger`: a 0xfd-tagged value below 253, a 0xfe-tagged
value below 65536, a 0xff-tagged value below 4294967296; in particular
`fd 00 00` fails while `fd fd 00` decodes to 253. -/
theorem c5_varint_canonicality :
    (∀ b0 b1 rest, fromLE [b0, b1] < 253 →
      read_variable_length_integer (0xfd :: b0 :: b1 :: rest) =
        .err (.InvalidVariableSizeInteger (fromLE [b0, b1]))) ∧
    (∀ b0 b1 b2 b3 rest, fromLE [b0, b1, b2, b3] < 65536 →
      read_variable_length_integer (0xfe :: b0 :: b1 :: b2 :: b3 :: rest) =
        .err (.InvalidVariableSizeInteger (fromLE [b0, b1, b2, b3]))) ∧
    (∀ b0 b1 b2 b3 b4 b5 b6 b7 rest,
      fromLE [b0, b1, b2, b3, b4, b5, b6, b7] < 4294967296 →
      read_variable_length_integer
          (0xff :: b0 :: b1 :: b2 :: b3 :: b4 :: b5 :: b6 :: b7 :: rest) =
        .err (.InvalidVariableSizeInteger
          (fromLE [b0, b1, b2, b3, b4, b5, b6, b7]))) ∧
    read_variable_length_integer [0xfd, 0x00, 0x00] =
      .err (.InvalidVariableSizeInteger 0) ∧
    read_variable_length_integer [0xfd, 0xfd, 0x00] = .ok (253, []) := by
  refine ⟨?_, ?_, ?_, by decide, by decide⟩
  · intro b0 b1 rest h
    unfold read_variable_length_integer
    have hr := readN_exact (n := 1) [0xfd] (b0 :: b1 :: rest) rfl
    simp only [List.cons_append, List.nil_append] at hr
    have hr2 := readN_exact (n := 2) [b0, b1] rest rfl
    simp only [List.cons_append, List.nil_append] at hr2
    simp [hr, hr2, fromLE_single, h]
  · intro b0 b1 b2 b3 rest h
    unfold read_variable_length_integer
    have hr := readN_exact (n := 1) [0xfe] (b0 :: b1 :: b2 :: b3 :: rest) rfl
    simp only [List.cons_append, List.nil_append] at hr
    have hr2 := readN_exact (n := 4) [b0, b1, b2, b3] rest rfl
    simp only [List.cons_append, List.nil_append] at hr2
    simp [hr, hr2, fromLE_single, h]
  · intro b0 b1 b2 b3 b4 b5 b6 b7 rest h
    unfold read_variable_length_integer
    have hr := readN_exact (n := 1) [0xff]
      (b0 :: b1 :: b2 :: b3 :: b4 :: b5 :: b6 :: b7 :: rest) rfl
    simp only [List.cons_append, List.nil_append] at hr
    have hr2 := readN_exact (n := 8) [b0, b1, b2, b3, b4, b5, b6, b7] rest rfl
    simp only [List.cons_append, List.nil_append] at hr2
    simp [hr, hr2, fromLE_single, h]

theorem c5_varint_canonicality_witness :
    fromLE [0, 0] < 253 ∧
    read_variable_length_integer [0xfd, 0, 0] =
      .err (.InvalidVariableSizeInteger (fromLE [0, 0])) :=
  ⟨by decide, c5_varint_canonicality.1 0 0 [] (by decide)⟩

/-- C6: constructing an Outpoint for a P2WSH address without a redeem script
fails with `InvalidInputs("P2WSH")`; but — contrary to the claim — a
supplied 33-byte scriptPubKey whose first byte is `0x00` passes the source's
conjunctive check (`spk[0] != 0 && spk[1] != 0x20 && len != 34`), and the
Outpoint is constructed without any error. -/
theorem c6_p2wsh_validation :
    Outpoint.new (List.replicate 32 0) 0 (some c6Addr) none none none =
      .err (.InvalidInputs ("P2WSH")) ∧
    Outpoint.new (List.replicate 32 0) 0 (some c6Addr) none (some [0x51])
        (some c6Spk) =
      .ok { reverse_transaction_id := List.replicate 32 0, index := 0,
            amount := none, script_pub_key := some c6Spk,
            redeem_script := some [0x51], address := some c6Addr } := by
  exact ⟨by rfl, by rfl⟩

/-- C10: decoding `c10FailingBytes`, whose input scriptSig carries the
unrecognized sighash byte `0x05`, makes `SignatureHash::from_byte` panic —
a process abort, not a returned `TransactionError`. -/
theorem c10_sighash_panic :
    BitcoinTransactionParameters.read c10FailingBytes =
      .panicked ("Unrecognized signature hash") := by
  rfl

/-- C7: when a transaction's input count decodes to zero, the next byte is
read as a segwit marker flag: any value other than 1 fails with
`InvalidSegwitFlag` carrying that byte; with flag 1 decoding proceeds in
segwit mode (any successfully parsed result has `segwit_flag = true`). -/
theorem c7_segwit_marker (v4 t : List Nat) (h4 : v4.length = 4)
    (b : Nat) (rest : List Nat)
    (hin : read_variable_length_integer t = .ok (0, b :: rest)) :
    (b ≠ 1 →
      BitcoinTransactionParameters.read (v4 ++ t) =
        .err (.InvalidSegwitFlag b)) ∧
    (b = 1 → ∀ p, BitcoinTransactionParameters.read (v4 ++ t) = .ok p →
      p.segwit_flag = true) := by
  have hrv := readN_exact v4 t h4
  have hstep : bitcoinVectorRead BitcoinTransactionInput.read t =
      .ok ([], b :: rest) := by
    simp [bitcoinVectorRead, hin, RResult.bind, readVector]
  constructor
  · intro hb
    unfold BitcoinTransactionParameters.read
    simp [hrv, hstep, RResult.bind, readN_one, fromLE_single, hb]
  · intro hb p
    subst hb
    unfold BitcoinTransactionParameters.read
    simp only [hrv, hstep, RResult.bind, readN_one, fromLE_single,
      List.isEmpty_nil, if_true, if_pos]
    cases h2 : bitcoinVectorRead BitcoinTransactionInput.read rest with
    | ok ri2 =>
      simp only [RResult.bind]
      cases h3 : bitcoinVectorRead BitcoinTransactionOutput.read ri2.2 with
      | ok ro =>
        simp only [RResult.bind, if_pos]
        cases h5 : assignWitnesses ri2.1 ro.2 with
        | ok riw =>
          simp only [RResult.bind]
          intro hok
          cases hok
          rfl
        | err e => simp [RResult.bind]
        | panicked m => simp [RResult.bind]
      | err e => simp [RResult.bind]
      | panicked m => simp [RResult.bind]
    | err e => simp [RResult.bind]
    | panicked m => simp [RResult.bind]

theorem c7_segwit_marker_witness :
    ([2, 0, 0, 0] : List Nat).length = 4 ∧
    read_variable_length_integer [0, 2] = .ok (0, [2]) ∧
    BitcoinTransactionParameters.read ([2, 0, 0, 0] ++ [0, 2]) =
      .err (.InvalidSegwitFlag 2) :=
  ⟨by decide, by decide,
    (c7_segwit_marker [2, 0, 0, 0] [0, 2] (by decide) 2 [] (by decide)).1
      (by decide)⟩

/-- C1 (amended): for an input over a Bech32, P2WSH or P2SH-P2WPKH outpoint
with the required script data and a present amount, the BIP-143 preimage is
the stated concatenation, where the script code is: for Bech32 the
scriptPubKey with its leading byte stripped and the remainder wrapped in
`OP_DUP OP_HASH160 .. OP_EQUALVERIFY OP_CHECKSIG`; for P2WSH the redeem
script unchanged; for P2SH-P2WPKH the redeem script with its leading byte
stripped and the remainder wrapped the same way. -/
theorem c1_segwit_preimage_layout (dsha2 : List Nat → List Nat)
    (tx : BitcoinTransaction) (vin : Nat) (sighash : SignatureHash)
    (input : BitcoinTransactionInput)
    (hin : tx.parameters.inputs[vin]? = some input)
    (addr : BitcoinAddress) (haddr : input.outpoint.address = some addr)
    (a : Int) (hamt : input.outpoint.amount = some a) :
    (∀ b tl, addr.format = .Bech32 →
      input.outpoint.script_pub_key = some (b :: tl) →
      BitcoinTransaction.segwit_hash_preimage dsha2 tx vin sighash =
        .ok (bip143LayoutSpec dsha2 tx.parameters input
          (OP_DUP :: OP_HASH160 :: tl ++ [OP_EQUALVERIFY, OP_CHECKSIG])
          a sighash)) ∧
    (∀ rs, addr.format = .P2WSH →
      input.outpoint.redeem_script = some rs →
      BitcoinTransaction.segwit_hash_preimage dsha2 tx vin sighash =
        .ok (bip143LayoutSpec dsha2 tx.parameters input rs a sighash)) ∧
    (∀ b tl, addr.format = .P2SH_P2WPKH →
      input.outpoint.redeem_script = some (b :: tl) →
      BitcoinTransaction.segwit_hash_preimage dsha2 tx vin sighash =
        .ok (bip143LayoutSpec dsha2 tx.parameters input
          (OP_DUP :: OP_HASH160 :: tl ++ [OP_EQUALVERIFY, OP_CHECKSIG])
          a sighash)) := by
  refine ⟨?_, ?_, ?_⟩
  · intro b tl hfmt hspk
    unfold BitcoinTransaction.segwit_hash_preimage
    simp [hin, haddr, hfmt, hspk, hamt, RResult.bind, bip143LayoutSpec,
      List.append_assoc]
  · intro rs hfmt hrs
    unfold BitcoinTransaction.segwit_hash_preimage
    simp [hin, haddr, hfmt, hrs, hamt, RResult.bind, bip143LayoutSpec,
      List.append_assoc]
  · intro b tl hfmt hrs
    unfold BitcoinTransaction.segwit_hash_preimage
    simp [hin, haddr, hfmt, hrs, hamt, RResult.bind, bip143LayoutSpec,
      List.append_assoc]

theorem c1_segwit_preimage_layout_witness :
    c1Tx.parameters.inputs[0]? = some c1In ∧
    BitcoinTransaction.segwit_hash_preimage dshaZero c1Tx 0 .SIGHASH_ALL =
      .ok (bip143LayoutSpec dshaZero c1Tx.parameters c1In
        (OP_DUP :: OP_HASH160 :: (0x14 :: List.replicate 20 0x22)
          ++ [OP_EQUALVERIFY, OP_CHECKSIG]) 5000 .SIGHASH_ALL) :=
  ⟨by rfl,
    (c1_segwit_preimage_layout dshaZero c1Tx 0 .SIGHASH_ALL c1In (by rfl)
        c1Addr (by rfl) 5000 (by rfl)).1
      0x00 (0x14 :: List.replicate 20 0x22) (by rfl) (by rfl)⟩

/-- C1 counterexample: for the Bech32 input of `c1Tx` (scriptPubKey and
amount present), the claimed preimage — with the Bech32 script code taken
as the stripped scriptPubKey, unwrapped — is a successfully produced byte
string, yet it differs from what `segwit_hash_preimage` actually returns
(the source wraps the Bech32 script code in
`OP_DUP OP_HASH160 .. OP_EQUALVERIFY OP_CHECKSIG`). -/
theorem c1_claim_counterexample :
    RResult.isOk
        (claimedSegwitPreimage dshaZero c1Tx 0 .SIGHASH_ALL) = true ∧
    RResult.isOk
        (BitcoinTransaction.segwit_hash_preimage dshaZero c1Tx 0
          .SIGHASH_ALL) = true ∧
    BitcoinTransaction.segwit_hash_preimage dshaZero c1Tx 0 .SIGHASH_ALL ≠
      claimedSegwitPreimage dshaZero c1Tx 0 .SIGHASH_ALL := by
  refine ⟨by rfl, by rfl, by decide⟩

/-- C8: the segwit preimage fails (with an error, not a result) when a
required field is absent or the outpoint format is unsupported:
`MissingOutpointAddress` when the outpoint has no address,
`UnsupportedPreimage("P2PKH")` for a legacy P2PKH outpoint, and
`MissingOutpointAmount` when the amount is absent for any of the three
supported formats. -/
theorem c8_segwit_preimage_errors (dsha2 : List Nat → List Nat)
    (tx : BitcoinTransaction) (vin : Nat) (sighash : SignatureHash)
    (input : BitcoinTransactionInput)
    (hin : tx.parameters.inputs[vin]? = some input) :
    (input.outpoint.address = none →
      BitcoinTransaction.segwit_hash_preimage dsha2 tx vin sighash =
        .err .MissingOutpointAddress) ∧
    (∀ addr, input.outpoint.address = some addr → addr.format = .P2PKH →
      BitcoinTransaction.segwit_hash_preimage dsha2 tx vin sighash =
        .err (.UnsupportedPreimage ("P2PKH"))) ∧
    (∀ addr b tl, input.outpoint.address = some addr →
      addr.format = .Bech32 →
      input.outpoint.script_pub_key = some (b :: tl) →
      input.outpoint.amount = none →
      BitcoinTransaction.segwit_hash_preimage dsha2 tx vin sighash =
        .err .MissingOutpointAmount) ∧
    (∀ addr rs, input.outpoint.address = some addr →
      addr.format = .P2WSH →
      input.outpoint.redeem_script = some rs →
      input.outpoint.amount = none →
      BitcoinTransaction.segwit_hash_preimage dsha2 tx vin sighash =
        .err .MissingOutpointAmount) ∧
    (∀ addr b tl, input.outpoint.address = some addr →
      addr.format = .P2SH_P2WPKH →
      input.outpoint.redeem_script = some (b :: tl) →
      input.outpoint.amount = none →
      BitcoinTransaction.segwit_hash_preimage dsha2 tx vin sighash =
        .err .MissingOutpointAmount) := by
  refine ⟨?_, ?_, ?_, ?_, ?_⟩
  · intro haddr
    unfold BitcoinTransaction.segwit_hash_preimage
    simp [hin, haddr, RResult.bind]
  · intro addr haddr hfmt
    unfold BitcoinTransaction.segwit_hash_preimage
    simp [hin, haddr, hfmt, RResult.bind]
  · intro addr b tl haddr hfmt hspk hamt
    unfold BitcoinTransaction.segwit_hash_preimage
    simp [hin, haddr, hfmt, hspk, hamt, RResult.bind]
  · intro addr rs haddr hfmt hrs hamt
    unfold BitcoinTransaction.segwit_hash_preimage
    simp [hin, haddr, hfmt, hrs, hamt, RResult.bind]
  · intro addr b tl haddr hfmt hrs hamt
    unfold BitcoinTransaction.segwit_hash_preimage
    simp [hin, haddr, hfmt, hrs, hamt, RResult.bind]

theorem c8_segwit_preimage_errors_witness :
    BitcoinTransaction.segwit_hash_preimage dshaZero c8TxA 0 .SIGHASH_ALL =
      .err .MissingOutpointAddress ∧
    BitcoinTransaction.segwit_hash_preimage dshaZero c8TxB 0 .SIGHASH_ALL =
      .err (.UnsupportedPreimage ("P2PKH")) ∧
    BitcoinTransaction.segwit_hash_preimage dshaZero c8TxC 0 .SIGHASH_ALL =
      .err .MissingOutpointAmount :=
  ⟨(c8_segwit_preimage_errors dshaZero c8TxA 0 .SIGHASH_ALL c8InA
      (by rfl)).1 (by rfl),
   (c8_segwit_preimage_errors dshaZero c8TxB 0 .SIGHASH_ALL c8InB
      (by rfl)).2.1 c8AddrB (by rfl) (by rfl),
   (c8_segwit_preimage_errors dshaZero c8TxC 0 .SIGHASH_ALL c8InC
      (by rfl)).2.2.1 c8AddrC 0x00 (0x14 :: List.replicate 20 4) (by rfl)
     (by rfl) (by rfl) (by rfl)⟩

/-- C3: for a valid input index, `sign_p2pkh` sets that input's scriptSig to
the VarInt-prefixed signature-with-appended-sighash-byte followed by the
single-length-byte-prefixed public key, marks the input signed, and returns
the re-serialized transaction bytes. -/
theorem c3_sign_p2pkh (tx : BitcoinTransaction)
    (signature public_key : List Nat) (index : Nat)
    (input : BitcoinTransactionInput)
    (hin : tx.parameters.inputs[index]? = some input) :
    BitcoinTransaction.sign_p2pkh tx signature public_key index =
      (signP2pkhExpected tx input signature public_key index).to_bytes.bind
        (fun bs =>
          .ok (signP2pkhExpected tx input signature public_key index, bs)) := by
  unfold BitcoinTransaction.sign_p2pkh signP2pkhExpected
  have hlen : (signature ++ [input.sighash_code.toByte]).length =
      signature.length + 1 := by simp
  simp [hin, RResult.bind, hlen, List.append_assoc]

theorem c3_sign_p2pkh_witness :
    BitcoinTransaction.sign_p2pkh c3Tx [1, 2, 3] [4, 5] 0 =
      (signP2pkhExpected c3Tx c3In [1, 2, 3] [4, 5] 0).to_bytes.bind
        (fun bs => .ok (signP2pkhExpected c3Tx c3In [1, 2, 3] [4, 5] 0, bs)) :=
  c3_sign_p2pkh c3Tx [1, 2, 3] [4, 5] 0 c3In (by rfl)

/-- C9 (amended): `BitcoinTransactionParameters::new` always sets
`segwit_flag` to false (even when an input carries a witness); for every
parameters value produced by `read`, `segwit_flag` is true whenever any
input carries a non-empty witness stack. -/
theorem c9_segwit_flag_invariant (ins : List BitcoinTransactionInput)
    (outs : List BitcoinTransactionOutput) (s : List Nat)
    (p : BitcoinTransactionParameters)
    (hp : BitcoinTransactionParameters.read s = .ok p) :
    (BitcoinTransactionParameters.new ins outs).segwit_flag = false ∧
    ∀ i ∈ p.inputs, i.witnesses ≠ [] → p.segwit_flag = true := by
  refine ⟨rfl, ?_⟩
  intro i hi hw
  by_contra hflag
  unfold BitcoinTransactionParameters.read at hp
  simp only [RResult.bind_ok_iff] at hp
  obtain ⟨ri, hri, ris, hris, ro, hro, riw, hriw, hfin⟩ := hp
  cases hfin
  cases he : ri.1.isEmpty with
  | true =>
    rw [if_pos (by simp [he])] at hris
    cases hfe : decide (fromLE (readN 1 ri.2).1 = 1) with
    | true =>
      rw [if_pos (of_decide_eq_true hfe)] at hris
      simp only [RResult.bind_ok_iff] at hris
      obtain ⟨ri2, hri2, hris⟩ := hris
      cases hris
      exact hflag rfl
    | false =>
      rw [if_neg (of_decide_eq_false hfe)] at hris
      cases hris
  | false =>
    rw [if_neg (by simp [he])] at hris
    cases hris
    rw [if_neg (by simp)] at hriw
    cases hriw
    unfold bitcoinVectorRead at hri
    simp only [RResult.bind_ok_iff] at hri
    obtain ⟨c, hc, hri⟩ := hri
    exact hw (readVector_input_witnesses_nil c.1 _ _ _ hri i hi)

theorem c9_segwit_flag_invariant_witness :
    BitcoinTransactionParameters.read c9Stream = .ok c9P ∧
    (BitcoinTransactionParameters.new [] []).segwit_flag = false ∧
    c9P.segwit_flag = true :=
  ⟨by decide,
   (c9_segwit_flag_invariant [] [] c9Stream c9P (by decide)).1,
   (c9_segwit_flag_invariant [] [] c9Stream c9P (by decide)).2 c9PIn
     (by decide) (by decide)⟩

/-- C9 counterexample: `new` applied to an input value carrying a non-empty
witness stack still produces `segwit_flag = false`. -/
theorem c9_claim_counterexample :
    ((BitcoinTransactionParameters.new [c9WitIn] []).inputs.any
      fun i => !i.witnesses.isEmpty) = true ∧
    (BitcoinTransactionParameters.new [c9WitIn] []).segwit_flag = false :=
  ⟨rfl, rfl⟩

/-- C2 (amended): the decode/encode round-trip `read(to_bytes(p)) = p`
holds for the wire-representable fragment of `TransactionParameters`:
non-segwit, at least one input, every input plain (no outpoint metadata,
empty scriptSig, unsigned, default sighash, no witnesses), outputs with
i64 amounts. -/
theorem c2_roundtrip_restricted (p : BitcoinTransactionParameters)
    (hv : p.version < 2 ^ 32) (hl : p.lock_time < 2 ^ 32)
    (hseg : p.segwit_flag = false) (hne : p.inputs ≠ [])
    (hni : p.inputs.length < 2 ^ 64) (hno : p.outputs.length < 2 ^ 64)
    (hi : ∀ i ∈ p.inputs, PlainInput i)
    (ho : ∀ o ∈ p.outputs, PlainOutput o) :
    (BitcoinTransaction.to_bytes ⟨p⟩).bind BitcoinTransactionParameters.read =
      .ok p := by
  obtain ⟨ver, ins, outs, lock, flag⟩ := p
  simp only at hv hl hseg hne hni hno hi ho
  subst hseg
  unfold BitcoinTransaction.to_bytes
  simp only [serializeInputs_plain ins hi, RResult.bind,
    inputs_any_witness_false ins hi, if_neg, Bool.false_eq_true,
    not_false_iff, if_false]
  unfold BitcoinTransactionParameters.read
  have hins : ins.isEmpty = false := by
    cases ins with
    | nil => exact absurd rfl hne
    | cons a l => rfl
  have hrv : readN 4 (leBytes 4 ver ++
      (variable_length_integer ins.length ++
        ((ins.flatMap fun i => i.outpoint.reverse_transaction_id ++
          (leBytes 4 i.outpoint.index ++ ([0] ++ i.sequence))) ++
          (variable_length_integer outs.length ++
            (outs.flatMap BitcoinTransactionOutput.serialize ++
              leBytes 4 lock))))) =
      (leBytes 4 ver, variable_length_integer ins.length ++
        ((ins.flatMap fun i => i.outpoint.reverse_transaction_id ++
          (leBytes 4 i.outpoint.index ++ ([0] ++ i.sequence))) ++
          (variable_length_integer outs.length ++
            (outs.flatMap BitcoinTransactionOutput.serialize ++
              leBytes 4 lock)))) := readN_exact _ _ (leBytes_length 4 _)
  have hbvi : bitcoinVectorRead BitcoinTransactionInput.read
      (variable_length_integer ins.length ++
        ((ins.flatMap fun i => i.outpoint.reverse_transaction_id ++
          (leBytes 4 i.outpoint.index ++ ([0] ++ i.sequence))) ++
          (variable_length_integer outs.length ++
            (outs.flatMap BitcoinTransactionOutput.serialize ++
              leBytes 4 lock)))) =
      .ok (ins, variable_length_integer outs.length ++
        (outs.flatMap BitcoinTransactionOutput.serialize ++
          leBytes 4 lock)) := by
    unfold bitcoinVectorRead
    rw [read_varint_encode ins.length hni]
    have h2 := readVector_inputs ins
      (variable_length_integer outs.length ++
        (outs.flatMap BitcoinTransactionOutput.serialize ++
          leBytes 4 lock)) hi
    simp only [List.append_assoc, List.singleton_append, List.cons_append,
      List.nil_append] at h2 ⊢
    simp [RResult.bind, h2]
  have hbvo : bitcoinVectorRead BitcoinTransactionOutput.read
      (variable_length_integer outs.length ++
        (outs.flatMap BitcoinTransactionOutput.serialize ++
          leBytes 4 lock)) =
      .ok (outs, leBytes 4 lock) := by
    unfold bitcoinVectorRead
    rw [read_varint_encode outs.length hno]
    simp [RResult.bind, readVector_outputs _ _ ho]
  have hlock : readN 4 (leBytes 4 lock) = (leBytes 4 lock, []) := by
    have := readN_exact (n := 4) (leBytes 4 lock) [] (leBytes_length 4 _)
    simpa using this
  have hverv : fromLE (leBytes 4 ver) = ver :=
    fromLE_leBytes_eq (by norm_num; omega)
  have hlockv : fromLE (leBytes 4 lock) = lock :=
    fromLE_leBytes_eq (by norm_num; omega)
  simp only [List.append_assoc, List.singleton_append, List.cons_append,
    List.nil_append] at hrv hbvi hbvo ⊢
  simp [hrv, hbvi, hbvo, hlock, hverv, hlockv, hins, hne, RResult.bind]

theorem c2_roundtrip_restricted_witness :
    (BitcoinTransaction.to_bytes
        ⟨BitcoinTransactionParameters.new [c2PlainIn] [c2PlainOut]⟩).bind
      BitcoinTransactionParameters.read =
      .ok (BitcoinTransactionParameters.new [c2PlainIn] [c2PlainOut]) :=
  c2_roundtrip_restricted (BitcoinTransactionParameters.new [c2PlainIn] [c2PlainOut])
    (by norm_num [BitcoinTransactionParameters.new])
    (by norm_num [BitcoinTransactionParameters.new])
    (by decide) (by decide) (by decide) (by decide)
    (by decide) (by decide)

/-- C2 counterexample: an input constructed through
`BitcoinTransactionInput::new` with a present outpoint amount is encoded
without that amount, so decoding the encoding does not return the original
parameters. -/
theorem c2_claim_counterexample :
    BitcoinTransactionInput.new (List.replicate 32 7) 0 none (some 5) none
        none = .ok c2In ∧
    (BitcoinTransaction.to_bytes ⟨BitcoinTransactionParameters.new [c2In] []⟩).bind
        BitcoinTransactionParameters.read ≠
      .ok (BitcoinTransactionParameters.new [c2In] []) := by
  exact ⟨by decide, by decide⟩

end AnychainBitcoin
